import Mathlib

/-!
Verification development for the CloudHarvestAgent job queue,
a shallow embedding of src/CloudHarvestAgent/agent/queue.py.

The embedding keeps the names of the python source where Lean allows it.
Python dictionaries become association lists with last-writer-wins update
semantics, the two Redis stores become association lists keyed by the
documented key formats, and the two background loop bodies become explicit
step functions over a system state.  External collaborators (the json
decoder, the plugin registry and the chain factory) are passed in as a
record of functions.
-/

namespace CloudHarvestAgent

/-- Queue lifecycle status codes, from class JobQueueStatusCodes
(queue.py lines 372 to 379).  The source stores these as strings; the
constructor also assigns the external TaskStatusCodes.initialized value,
whose name coincides, so one vocabulary is used here. -/
inductive QueueStatus where
  | initialized
  | running
  | complete
  | error
  | stopped
  | stopping
  | terminating
deriving DecidableEq

/-- Status vocabulary of an individual task chain, from the external
CloudHarvestCoreTasks TaskStatusCodes enum as referenced by queue.py. -/
inductive ChainStatus where
  | initialized
  | running
  | complete
  | error
  | terminating
deriving DecidableEq

/-- External task chain, reduced to the interface queue.py touches: the
identifier, the status enum, and the serialized detailed progress snapshot
(the value of json.dumps applied to detailed_progress()). -/
structure BaseTaskChain where
  uuid : String
  status : ChainStatus
  progress : String
deriving DecidableEq

/-- The in-memory table of in-flight chains: JobQueue subclasses
Dict[str, BaseTaskChain], modelled as an association list in insertion
order. -/
abbrev Entries := List (String × BaseTaskChain)

/-- Python dict assignment self[k] = v: an existing key keeps its position
and its value is replaced; a fresh key is appended. -/
def dictInsert (m : Entries) (k : String) (v : BaseTaskChain) : Entries :=
  if m.any (fun p => decide (p.1 = k)) then
    m.map (fun p => if p.1 = k then (k, v) else p)
  else m ++ [(k, v)]

/-- Python dict self.pop(k, None): removes the entry under k when present,
otherwise no effect and no error. -/
def dictPop (m : Entries) (k : String) : Entries :=
  m.filter (fun p => !(decide (p.1 = k)))

/-- Observer for the table: python m.get(k) / m[k] lookup. -/
def entriesLookup (m : Entries) (k : String) : Option BaseTaskChain :=
  (m.find? (fun p => decide (p.1 = k))).map (fun p => p.2)

/-- The two loop bodies that start() passes as Thread targets. -/
inductive ThreadTarget where
  | thread_reporting
  | thread_check_queue
deriving DecidableEq

/-- A threading.Thread object.  Constructing the object does not run the
target; only an explicit Thread.start call would set started. -/
structure ThreadHandle where
  target : ThreadTarget
  daemon : Bool
  started : Bool
deriving DecidableEq

/-- threading.Thread(target=t, daemon=d): construction only. -/
def threadNew (target : ThreadTarget) (daemon : Bool) : ThreadHandle :=
  { target := target, daemon := daemon, started := false }

/-- The JobQueue state: the entries table (the dict contents of self), the
configuration fields of queue.py __init__ that the verified operations
read, the lifecycle fields, and the two thread handle slots. -/
structure JobQueue where
  entries : Entries
  accepted_chain_priorities : List Int
  queue_check_interval_seconds : Nat
  max_chains : Nat
  reporting_interval_seconds : Nat
  status : QueueStatus
  start_time : Nat
  stop_time : Option Nat
  reporting_thread : Option ThreadHandle
  check_queue_thread : Option ThreadHandle
deriving DecidableEq

/-- JobQueue.is_queue_full (queue.py lines 119 to 125):
len(self.keys()) >= self.max_chains. -/
def JobQueue.is_queue_full (q : JobQueue) : Bool :=
  decide (q.entries.length ≥ q.max_chains)

/-- JobQueue._on_chain_complete (queue.py lines 77 to 93): the two get_silo
calls fetch silo handles and have no effect on the queue state; the only
state change is self.pop(task_chain_id, None). -/
def on_chain_complete (q : JobQueue) (task_chain_id : String) : JobQueue :=
  { q with entries := dictPop q.entries task_chain_id }

/-- The dictionary returned by JobQueue.start. -/
structure StartReturn where
  result : QueueStatus
  message : String
deriving DecidableEq

/-- JobQueue.start (queue.py lines 235 to 267): sets status to running,
clears stop_time, constructs the two daemon Thread objects and stores them
in self._reporting_thread and self._check_queue_thread.  No Thread.start
call occurs anywhere in the method, so neither loop begins executing.
Thread construction is pure and cannot fail, so the except branch that
would set status to error is unreachable and the success message is
always returned; the result field carries self.status. -/
def JobQueue.start (q : JobQueue) : JobQueue × StartReturn :=
  let q2 : JobQueue :=
    { q with
      status := QueueStatus.running,
      stop_time := none,
      reporting_thread := some (threadNew ThreadTarget.thread_reporting true),
      check_queue_thread := some (threadNew ThreadTarget.thread_check_queue true) }
  (q2, { result := q2.status, message := "JobQueue started successfully." })

/-- A python exception surfaced by a modelled operation. -/
inductive PyError where
  | attributeError
deriving DecidableEq

/-- The dictionary JobQueue.stop would return from its final lines. -/
structure StopReturn where
  result : Bool
  message : String
deriving DecidableEq

/-- JobQueue.stop (queue.py lines 303 to 345).  Line 313 sets status to
stopping, unconditionally for every finish_running_jobs value.  Line 316
then evaluates self._thread_check_queue.join(); _thread_check_queue is the
bound method defined at line 95, not the Thread handle which is stored
under the different name _check_queue_thread, and a bound method has no
join attribute, so the call raises AttributeError.  Nothing after line 316
is reachable: the terminate requests, the timeout wait, the stop_time
assignment and the return dictionary never execute.  The model returns the
queue state at the point the exception propagates, paired with the
exception. -/
def JobQueue.stop (q : JobQueue) (finish_running_jobs : Bool) (timeout : Nat) :
    JobQueue × Except PyError StopReturn :=
  let q2 : JobQueue := { q with status := QueueStatus.stopping }
  (q2, Except.error PyError.attributeError)

/-- A key of the harvest-task-queue Redis store, documented in queue.py
lines 355 to 357 as name = priority:task_chain_id; modelled structurally.
The value under a key is the ordered list of serialized chain payloads. -/
structure QueueKey where
  priority : Int
  chainId : String
deriving DecidableEq

/-- The remote queue store: Redis keys (unique in a real store) in scan
order, each holding a list of serialized payloads. -/
abbrev RemoteStore := List (QueueKey × List String)

/-- Redis LPOP on the named list: pops the head of the list under the first
entry bearing the key; an absent key or empty list yields nothing and
leaves the store unchanged. -/
def lpop : RemoteStore → QueueKey → Option String × RemoteStore
  | [], _ => (none, [])
  | (k, vs) :: rest, key =>
    if k = key then
      match vs with
      | [] => (none, (k, vs) :: rest)
      | v :: tl => (some v, (k, tl) :: rest)
    else
      let r := lpop rest key
      (r.1, (k, vs) :: r.2)

/-- The inner loop of get_oldest_task_from_queue (queue.py lines 363 to
369): for each scanned key name in order, take the task_chain_id segment
of the name and attempt an LPOP; the first non-empty pop is returned
immediately together with the mutated store, and no further candidate is
examined. -/
def tryPopKeys : RemoteStore → List QueueKey → Option (String × String) × RemoteStore
  | silo, [] => (none, silo)
  | silo, name :: rest =>
    let task_id := name.chainId
    let r := lpop silo name
    match r.1 with
    | some task => (some (task_id, task), r.2)
    | none => tryPopKeys r.2 rest

/-- get_oldest_task_from_queue (queue.py lines 347 to 369): iterate the
accepted priorities in the caller-supplied order; within a tier,
scan_iter(match=priority:*) enumerates, in store order, the keys whose
priority segment matches (count=100 is only a batch size hint and does not
bound the enumeration); the first successful pop is returned.  When no
tier yields a task the python function falls off the end and returns
None. -/
def get_oldest_task_from_queue : RemoteStore → List Int → Option (String × String) × RemoteStore
  | silo, [] => (none, silo)
  | silo, p :: rest =>
    let names := (silo.map Prod.fst).filter (fun k => decide (k.priority = p))
    let r := tryPopKeys silo names
    match r.1 with
    | some t => (some t, r.2)
    | none => get_oldest_task_from_queue r.2 rest

/-- A priority tier has a pending entry when some key of that tier holds a
non-empty list. -/
def tierPendingB (silo : RemoteStore) (p : Int) : Bool :=
  silo.any (fun e => decide (e.1.priority = p) && !(e.2.isEmpty))

/-- Proof helper: a single ordered pass over the store popping the head of
the first non-empty list whose key matches the tier.  For a store with
duplicate-free keys this computes the same result as scanning the matching
names and popping each in turn. -/
def singlePassPop : RemoteStore → Int → Option (String × String) × RemoteStore
  | [], _ => (none, [])
  | (k, vs) :: rest, p =>
    if k.priority = p then
      match vs with
      | v :: tl => (some (k.chainId, v), (k, tl) :: rest)
      | [] =>
        let r := singlePassPop rest p
        (r.1, (k, vs) :: r.2)
    else
      let r := singlePassPop rest p
      (r.1, (k, vs) :: r.2)

/-- The user_parameters dictionary forwarded to the chain factory,
opaque to the queue. -/
abbrev UserParams := List (String × String)

/-- The record json.loads produces from a queue payload, combined with the
subscript and .get accesses the intake loop performs on it: the two
required keys and the two optional ones. -/
structure LoadedTemplate where
  task_template_name : String
  user_parameters : UserParams
  tags : Option (List String)
  uuid : Option String
deriving DecidableEq

/-- A registered chain template, opaque to the queue. -/
abbrev Template := String

/-- Exceptions of the admission path. -/
inductive AdmitError where
  | indexError
deriving DecidableEq

/-- External collaborators of the queue: json.loads restricted to template
decoding (None models a json.JSONDecodeError or a missing required key),
the plugin Registry template search, and the chain factory
task_chain_from_dict. -/
structure ExtFns where
  loads : String → Option LoadedTemplate
  registryFind : String → Option (List String) → List Template
  factory : Template → UserParams → BaseTaskChain

/-- JobQueue.get_task_chain_from_template (queue.py lines 269 to 301):
Registry.find(...)[0] raises IndexError when no template matches; otherwise
the factory builds the chain, the uuid override is applied when supplied,
and the chain is assigned into the table with plain dict assignment
self[task_chain.uuid] = task_chain, with no duplicate check of any kind. -/
def get_task_chain_from_template (E : ExtFns) (q : JobQueue)
    (task_template_name : String) (user_parameters : UserParams)
    (tags : Option (List String)) (uuid : Option String) :
    Except AdmitError (JobQueue × BaseTaskChain) :=
  match E.registryFind task_template_name tags with
  | [] => Except.error AdmitError.indexError
  | template :: _ =>
    let chain := E.factory template user_parameters
    let chain2 := match uuid with
      | some u => { chain with uuid := u }
      | none => chain
    Except.ok ({ q with entries := dictInsert q.entries chain2.uuid chain2 }, chain2)

/-- The state touched by the intake loop: the queue, the remote store, and
two flags recording how the thread function ended, if it did.
intakeExited records that the while guard failed and the function
returned; intakeCrashed records an uncaught exception killing the
thread. -/
structure AgentState where
  q : JobQueue
  remote : RemoteStore
  intakeExited : Bool
  intakeCrashed : Bool
deriving DecidableEq

/-- One evaluation of the while guard of JobQueue._thread_check_queue
(queue.py lines 95 to 117) followed, when the guard holds, by one body
iteration.  The guard is
  not self.is_queue_full and self.status != terminating;
when it fails the thread function returns and never runs again.  On a hit,
line 111 passes oldest_task[0] to json.loads: that is the task id taken
from the key name, not the stored payload oldest_task[1], which is never
parsed.  A loads failure, like an IndexError from the registry lookup, is
uncaught inside the thread and kills it; the payload popped from the
remote store is lost either way. -/
def intakeIteration (E : ExtFns) (s : AgentState) : AgentState :=
  if s.intakeExited = true ∨ s.intakeCrashed = true then s
  else if s.q.is_queue_full = true ∨ s.q.status = QueueStatus.terminating then
    { s with intakeExited := true }
  else
    let r := get_oldest_task_from_queue s.remote s.q.accepted_chain_priorities
    match r.1 with
    | none => { s with remote := r.2 }
    | some (task_id, _task) =>
      match E.loads task_id with
      | none => { s with remote := r.2, intakeCrashed := true }
      | some t =>
        match get_task_chain_from_template E s.q
            t.task_template_name t.user_parameters t.tags t.uuid with
        | Except.error _ => { s with remote := r.2, intakeCrashed := true }
        | Except.ok (q2, _) => { s with q := q2, remote := r.2 }

/-- Events interleaved against the shared table: an intake loop iteration,
or the completion callback firing for a chain id. -/
inductive AgentEvent where
  | intake
  | complete (id : String)

def agentStep (E : ExtFns) (s : AgentState) : AgentEvent → AgentState
  | AgentEvent.intake => intakeIteration E s
  | AgentEvent.complete id => { s with q := on_chain_complete s.q id }

def agentRun (E : ExtFns) : AgentState → List AgentEvent → AgentState
  | s, [] => s
  | s, e :: es => agentRun E (agentStep E s e) es

/-- The harvest-tasks status store: key, current value, and the remaining
time to live when one is set. -/
abbrev StatusStore := List (String × String × Option Nat)

/-- Redis SET: replaces the value under an existing key (SET also clears
any previous expiration) or appends a fresh key with no expiration.  Keys
of a real store are unique, so the first matching entry is the entry. -/
def redisSet : StatusStore → String → String → StatusStore
  | [], k, v => [(k, v, (none : Option Nat))]
  | e :: rest, k, v =>
    if e.1 = k then (k, v, (none : Option Nat)) :: rest else e :: redisSet rest k v

/-- Redis EXPIRE: sets the time to live of an existing key; an absent key
is left alone. -/
def redisExpire : StatusStore → String → Nat → StatusStore
  | [], _, _ => []
  | e :: rest, k, t =>
    if e.1 = k then (k, e.2.1, some t) :: rest else e :: redisExpire rest k t

/-- Observer: the value and remaining time to live stored under a key. -/
def statusLookup (s : StatusStore) (k : String) : Option (String × Option Nat) :=
  (s.find? (fun e => decide (e.1 = k))).map (fun e => e.2)

/-- The two store calls the reporting loop makes per chain (queue.py lines
142 to 147): set the serialized detailed progress under the chain id, then
expire the key after reporting_interval_seconds * 10. -/
def writeChain (silo : StatusStore) (interval : Nat) (id : String)
    (chain : BaseTaskChain) : StatusStore :=
  redisExpire (redisSet silo id chain.progress) id (interval * 10)

/-- Straight-line sequence of per-chain writes, the effect of an
uninterrupted pass of the reporting for loop. -/
def writeChains : StatusStore → Nat → Entries → StatusStore
  | silo, _, [] => silo
  | silo, interval, (id, c) :: rest => writeChains (writeChain silo interval id c) interval rest

/-- The for loop inside one iteration of JobQueue._thread_reporting
(queue.py lines 142 to 151), under a queue status held fixed for the
cycle.  failSet marks the chain ids whose set call raises a transient
store error; the try block wraps the entire for loop, so such an exception
abandons the remaining chains of the cycle (the Bool result records the
abort).  After each successful write the loop breaks when the queue status
is complete or terminating; the break leaves only this for loop. -/
def reportItems (failSet : String → Bool) (interval : Nat) (status : QueueStatus) :
    StatusStore → Entries → StatusStore × Bool
  | silo, [] => (silo, false)
  | silo, (id, c) :: rest =>
    if failSet id then (silo, true)
    else
      let silo2 := writeChain silo interval id c
      if status = QueueStatus.complete ∨ status = QueueStatus.terminating then (silo2, false)
      else reportItems failSet interval status silo2 rest

/-- The state read and written by the reporting loop: a snapshot of the
table (list(self.items())), the queue status, the configured interval, the
status store, and a count of the cycles the while loop has started. -/
structure RState where
  entries : Entries
  status : QueueStatus
  reporting_interval_seconds : Nat
  silo : StatusStore
  cyclesStarted : Nat
deriving DecidableEq

/-- One iteration of the while True loop of _thread_reporting (queue.py
lines 137 to 160): connect to the silo, run the for loop inside try (an
exception is only logged), then sleep in the finally block.  The body
contains no path that leaves the while loop. -/
def reportingCycle (failSet : String → Bool) (st : RState) : RState :=
  let r := reportItems failSet st.reporting_interval_seconds st.status st.silo st.entries
  { st with silo := r.1, cyclesStarted := st.cyclesStarted + 1 }

/-- n iterations of the reporting while loop. -/
def reportingLoop (failSet : String → Bool) : Nat → RState → RState
  | 0, st => st
  | n + 1, st => reportingLoop failSet n (reportingCycle failSet st)

/-- A chain value for concrete scenarios. -/
def demoChain (u : String) (pr : String) : BaseTaskChain :=
  { uuid := u, status := ChainStatus.running, progress := pr }

/-- The decoded form of the payload used in concrete scenarios. -/
def demoTemplate : LoadedTemplate :=
  { task_template_name := "noop", user_parameters := [], tags := none, uuid := some "abc" }

/-- Concrete external collaborators: json.loads decodes exactly the stored
payload string and nothing else (a task id such as abc is not a JSON
document), the registry resolves every name, and the factory returns a
fresh chain. -/
def demoExtFns : ExtFns :=
  { loads := fun s => if s = "payload1" then some demoTemplate else none,
    registryFind := fun _ _ => ["noop-template"],
    factory := fun _ _ => demoChain "generated" "p0" }

/-- A queue value with the given table, capacity and status. -/
def demoQueue (es : Entries) (mx : Nat) (st : QueueStatus) : JobQueue :=
  { entries := es,
    accepted_chain_priorities := [1],
    queue_check_interval_seconds := 1,
    max_chains := mx,
    reporting_interval_seconds := 5,
    status := st,
    start_time := 0,
    stop_time := none,
    reporting_thread := none,
    check_queue_thread := none }

/-- Scenario: a running queue with room and one pending remote request. -/
def dropState : AgentState :=
  { q := demoQueue [] 2 QueueStatus.running,
    remote := [({ priority := 1, chainId := "abc" }, ["payload1"])],
    intakeExited := false, intakeCrashed := false }

/-- Scenario: a full queue (capacity 1, one admitted chain) with one
pending remote request. -/
def fullState : AgentState :=
  { q := demoQueue [("e1", demoChain "e1" "p1")] 1 QueueStatus.running,
    remote := [({ priority := 1, chainId := "abc" }, ["payload1"])],
    intakeExited := false, intakeCrashed := false }

/-- Scenario: a queue whose status stop() actually set (stopping), with
room and one pending remote request. -/
def stoppingState : AgentState :=
  { q := demoQueue [] 2 QueueStatus.stopping,
    remote := [({ priority := 1, chainId := "abc" }, ["payload1"])],
    intakeExited := false, intakeCrashed := false }

/-- Scenario: a queue whose status is terminating. -/
def terminatingState : AgentState :=
  { q := demoQueue [] 2 QueueStatus.terminating,
    remote := [({ priority := 1, chainId := "abc" }, ["payload1"])],
    intakeExited := false, intakeCrashed := false }

/-- Scenario: a queue that already holds a chain under identifier abc. -/
def dupQueue : JobQueue :=
  demoQueue [("abc", demoChain "abc" "old-progress")] 4 QueueStatus.running

/-- Scenario for the poll protocol: an older entry at tier 5 listed first,
a newer entry at tier 1, accepted order [1, 5]. -/
def demoSilo : RemoteStore :=
  [({ priority := 5, chainId := "old" }, ["vold"]),
   ({ priority := 1, chainId := "new" }, ["vnew"])]

/-- Reporting scenario: two chains, the first of which fails to write, with
queue status complete. -/
def rstC : RState :=
  { entries := [("a", demoChain "a" "pa"), ("b", demoChain "b" "pb")],
    status := QueueStatus.complete,
    reporting_interval_seconds := 5,
    silo := [],
    cyclesStarted := 0 }

/-- Reporting scenario: two chains, no failures, status running. -/
def rstOK : RState :=
  { entries := [("a", demoChain "a" "pa"), ("b", demoChain "b" "pb")],
    status := QueueStatus.running,
    reporting_interval_seconds := 5,
    silo := [],
    cyclesStarted := 0 }

/-- Transient failure pattern hitting exactly chain a. -/
def failA : String → Bool := fun id => decide (id = "a")

/-- No transient failures. -/
def failNone : String → Bool := fun _ => false

/-- Claim C2: start() does set status to running, clear stop_time and
return the success message, but it only constructs the two Thread objects
and never calls Thread.start on either, so the intake loop and the
reporting loop are not launched as concurrent activities; the error path
is unreachable.  This evaluates JobQueue.start on an arbitrary queue and
exhibits started = false on both stored handles. -/
theorem start_sets_running_but_never_starts_threads (q : JobQueue) :
    (JobQueue.start q).1.status = QueueStatus.running ∧
    (JobQueue.start q).1.stop_time = none ∧
    (JobQueue.start q).1.reporting_thread =
      some { target := ThreadTarget.thread_reporting, daemon := true, started := false } ∧
    (JobQueue.start q).1.check_queue_thread =
      some { target := ThreadTarget.thread_check_queue, daemon := true, started := false } ∧
    (JobQueue.start q).2 =
      { result := QueueStatus.running, message := "JobQueue started successfully." } :=
  ⟨rfl, rfl, rfl, rfl, rfl⟩

/-- Claim C3: stop() never returns the structured result and never records
stop_time: after setting status to stopping it raises AttributeError at
self._thread_check_queue.join(), for every argument combination. -/
theorem stop_raises_attribute_error (q : JobQueue) (finish_running_jobs : Bool) (timeout : Nat) :
    (JobQueue.stop q finish_running_jobs timeout).2 = Except.error PyError.attributeError ∧
    (JobQueue.stop q finish_running_jobs timeout).1.stop_time = q.stop_time ∧
    (JobQueue.stop q finish_running_jobs timeout).1.status = QueueStatus.stopping :=
  ⟨rfl, rfl, rfl⟩

/-- Claim C4: stop(finish_running_jobs=false) sets status to stopping, not
terminating, and the table is untouched, so no admitted chain receives a
terminate request: the AttributeError at line 316 propagates before the
terminate loop is reached. -/
theorem stop_false_keeps_stopping_and_sends_no_terminate (q : JobQueue) (timeout : Nat) :
    (JobQueue.stop q false timeout).1.status = QueueStatus.stopping ∧
    (JobQueue.stop q false timeout).1.status ≠ QueueStatus.terminating ∧
    (JobQueue.stop q false timeout).1.entries = q.entries ∧
    (JobQueue.stop q false timeout).2 = Except.error PyError.attributeError :=
  ⟨rfl, fun h => QueueStatus.noConfusion h, rfl, rfl⟩

/-- Claim C1, failing runs.  First run: on a running queue with room, one
intake iteration pops the pending request off the remote store, then
json.loads is applied to the task id abc (oldest_task[0], not the payload
oldest_task[1]), which fails; the thread dies and the dequeued request is
dropped: it is in neither the remote store nor the table afterwards, even
though the stored payload itself was decodable.  Second run: with capacity
1 and the queue full, the intake guard fails and the thread function
returns (intakeExited); after the completion callback frees the only slot,
further intake iterations change nothing, the final state is a fixpoint of
the intake step, and the pending remote request is never admitted. -/
theorem intake_drops_dequeued_request :
    ((intakeIteration demoExtFns dropState).remote =
        [({ priority := 1, chainId := "abc" }, [])] ∧
      (intakeIteration demoExtFns dropState).q.entries = [] ∧
      (intakeIteration demoExtFns dropState).intakeCrashed = true ∧
      demoExtFns.loads "payload1" = some demoTemplate ∧
      demoExtFns.loads "abc" = none) ∧
    ((agentRun demoExtFns fullState
        [AgentEvent.intake, AgentEvent.complete "e1", AgentEvent.intake]).q.entries = [] ∧
      (agentRun demoExtFns fullState
        [AgentEvent.intake, AgentEvent.complete "e1", AgentEvent.intake]).remote =
        [({ priority := 1, chainId := "abc" }, ["payload1"])] ∧
      (agentRun demoExtFns fullState
        [AgentEvent.intake, AgentEvent.complete "e1", AgentEvent.intake]).intakeExited = true ∧
      intakeIteration demoExtFns
        (agentRun demoExtFns fullState
          [AgentEvent.intake, AgentEvent.complete "e1", AgentEvent.intake]) =
        agentRun demoExtFns fullState
          [AgentEvent.intake, AgentEvent.complete "e1", AgentEvent.intake]) := by
  decide

/-- Claim C9, counterexample: with the queue status at stopping, the value
stop() actually assigns, and room in the table, the intake iteration still
polls the remote queue: the pending request is popped off the store, so
the store observably changes while the status is not running. -/
theorem intake_polls_while_stopping_cex :
    stoppingState.q.status = QueueStatus.stopping ∧
    stoppingState.q.status ≠ QueueStatus.running ∧
    stoppingState.intakeExited = false ∧
    (intakeIteration demoExtFns stoppingState).remote ≠ stoppingState.remote ∧
    (intakeIteration demoExtFns stoppingState).remote =
      [({ priority := 1, chainId := "abc" }, [])] := by
  decide

/-- Claim C9, amended: the intake loop halts exactly when its guard fails,
that is when the queue is full or the status is terminating; in
particular, with the status terminating the iteration performs no poll and
no admission, only marking the thread function as returned, and once the
thread function has returned or crashed every further iteration is a
no-op. -/
theorem intake_halts_only_when_terminating (E : ExtFns) (s : AgentState) :
    (s.intakeExited = false → s.intakeCrashed = false →
      s.q.status = QueueStatus.terminating →
      intakeIteration E s = { s with intakeExited := true }) ∧
    ((s.intakeExited = true ∨ s.intakeCrashed = true) → intakeIteration E s = s) := by
  constructor
  · intro h1 h2 h3
    simp [intakeIteration, h1, h2, h3]
  · intro h
    simp [intakeIteration, h]

/-- Claim C9, witness: the amended halt property evaluated at a concrete
terminating state. -/
theorem intake_halts_only_when_terminating_w :
    intakeIteration demoExtFns terminatingState =
      { terminatingState with intakeExited := true } :=
  (intake_halts_only_when_terminating demoExtFns terminatingState).1 rfl rfl rfl

/-- Claim C6, counterexample: admitting from a template whose resulting
chain identifier abc is already a key of the table is not rejected: the
assignment overwrites the existing entry, so the table is mutated and the
running chain previously stored under abc is replaced. -/
theorem duplicate_admission_overwrites_cex :
    "abc" ∈ dupQueue.entries.map Prod.fst ∧
    get_task_chain_from_template demoExtFns dupQueue "noop" [] none (some "abc") =
      Except.ok
        ({ dupQueue with
            entries := [("abc",
              { uuid := "abc", status := ChainStatus.running, progress := "p0" })] },
          { uuid := "abc", status := ChainStatus.running, progress := "p0" }) ∧
    [("abc", ({ uuid := "abc", status := ChainStatus.running, progress := "p0" } :
        BaseTaskChain))] ≠ dupQueue.entries ∧
    entriesLookup [("abc",
        ({ uuid := "abc", status := ChainStatus.running, progress := "p0" } :
          BaseTaskChain))] "abc" ≠
      entriesLookup dupQueue.entries "abc" := by
  refine ⟨by decide, rfl, by decide, by decide⟩

/-- Claim C7, counterexample: in a cycle over chains a then b where the
write for a raises a transient store error, chain b is not written in that
cycle (the store stays empty), even though only a single write failed; and
with the queue status already complete the while loop does not exit: three
more iterations run, every one starting a new cycle. -/
theorem reporting_failure_aborts_cycle_cex :
    rstC.status = QueueStatus.complete ∧
    failA "a" = true ∧
    failA "b" = false ∧
    rstC.entries.map Prod.fst = ["a", "b"] ∧
    (reportingCycle failA rstC).silo = [] ∧
    statusLookup (reportingCycle failA rstC).silo "b" = none ∧
    (reportingLoop failA 3 rstC).cyclesStarted = 3 := by
  decide

theorem entriesLookup_dictPop_self (m : Entries) (k : String) :
    entriesLookup (dictPop m k) k = none := by
  induction m with
  | nil => rfl
  | cons e rest ih =>
    obtain ⟨a, c⟩ := e
    by_cases hak : a = k
    · simp only [dictPop] at ih ⊢
      rw [List.filter_cons, if_neg (by simp [hak])]
      exact ih
    · have h2 := ih
      simp only [dictPop] at h2 ⊢
      rw [List.filter_cons, if_pos (by simp [hak])]
      simp only [entriesLookup] at h2 ⊢
      rw [List.find?_cons_of_neg _ (by simp [hak])]
      exact h2

theorem entriesLookup_dictPop_ne (m : Entries) (k k2 : String) (h : k2 ≠ k) :
    entriesLookup (dictPop m k) k2 = entriesLookup m k2 := by
  induction m with
  | nil => rfl
  | cons e rest ih =>
    obtain ⟨a, c⟩ := e
    by_cases hak : a = k
    · subst hak
      have hak2 : ¬ (a = k2) := fun hh => h (hh ▸ rfl)
      simpa [dictPop, entriesLookup, List.filter_cons, List.find?_cons, hak2] using ih
    · by_cases hak2 : a = k2
      · subst hak2
        simp [dictPop, entriesLookup, List.filter_cons, List.find?_cons, hak]
      · simpa [dictPop, entriesLookup, List.filter_cons, List.find?_cons, hak, hak2] using ih

theorem dictPop_eq_self_of_notmem (m : Entries) (k : String)
    (h : k ∉ m.map Prod.fst) : dictPop m k = m := by
  induction m with
  | nil => rfl
  | cons e rest ih =>
    obtain ⟨a, c⟩ := e
    simp only [List.map_cons, List.mem_cons, not_or] at h
    have hak : ¬ (a = k) := fun hh => h.1 hh.symm
    have h2 : dictPop rest k = rest := ih h.2
    simp only [dictPop] at h2 ⊢
    rw [List.filter_cons, if_pos (by simp [hak]), h2]

theorem dictPop_length_of_mem (m : Entries) (k : String)
    (hnd : (m.map Prod.fst).Nodup) (h : k ∈ m.map Prod.fst) :
    (dictPop m k).length + 1 = m.length := by
  induction m with
  | nil => simp at h
  | cons e rest ih =>
    obtain ⟨a, c⟩ := e
    simp only [List.map_cons, List.nodup_cons] at hnd
    by_cases hak : a = k
    · subst hak
      have h2 : dictPop rest a = rest := dictPop_eq_self_of_notmem rest a hnd.1
      simp only [dictPop] at h2 ⊢
      rw [List.filter_cons, if_neg (by simp), h2]
      simp
    · simp only [List.map_cons, List.mem_cons] at h
      rcases h with h | h
      · exact absurd h.symm hak
      · have h3 := ih hnd.2 h
        simp only [dictPop] at h3 ⊢
        rw [List.filter_cons, if_pos (by simp [hak])]
        simp only [List.length_cons]
        omega

/-- Claim C10: the completion callback removes exactly the named entry,
when present: the identifier no longer resolves, every other identifier
resolves as before, the table shrinks by one, and the queue status and
capacity configuration are untouched; with an identifier not in the table
the whole queue state is unchanged, and no error arises (the operation is
total). -/
theorem on_chain_complete_frame (q : JobQueue) (id : String)
    (hnd : (q.entries.map Prod.fst).Nodup) :
    (on_chain_complete q id).status = q.status ∧
    (on_chain_complete q id).max_chains = q.max_chains ∧
    entriesLookup (on_chain_complete q id).entries id = none ∧
    (∀ k, k ≠ id → entriesLookup (on_chain_complete q id).entries k = entriesLookup q.entries k) ∧
    (id ∈ q.entries.map Prod.fst → (on_chain_complete q id).entries.length + 1 = q.entries.length) ∧
    (id ∉ q.entries.map Prod.fst → on_chain_complete q id = q) := by
  refine ⟨rfl, rfl, entriesLookup_dictPop_self q.entries id,
    fun k hk => entriesLookup_dictPop_ne q.entries id k hk,
    fun hmem => dictPop_length_of_mem q.entries id hnd hmem,
    fun hnm => ?_⟩
  show { q with entries := dictPop q.entries id } = q
  rw [dictPop_eq_self_of_notmem q.entries id hnm]

/-- Claim C10, witness: the frame property evaluated on a concrete queue
holding chains abc and xyz, removing abc. -/
theorem on_chain_complete_frame_w :
    (dupQueue.entries.map Prod.fst).Nodup ∧
    entriesLookup (on_chain_complete dupQueue "abc").entries "abc" = none :=
  ⟨by decide, (on_chain_complete_frame dupQueue "abc" (by decide)).2.2.1⟩

theorem entriesLookup_dictInsert_self (m : Entries) (k : String) (v : BaseTaskChain) :
    entriesLookup (dictInsert m k v) k = some v := by
  by_cases hmem : m.any (fun p => decide (p.1 = k)) = true
  · simp only [dictInsert, hmem, if_true]
    induction m with
    | nil => simp at hmem
    | cons e rest ih =>
      obtain ⟨a, c⟩ := e
      by_cases hak : a = k
      · simp [entriesLookup, List.find?_cons, hak]
      · simp only [List.any_cons, Bool.or_eq_true, decide_eq_true_eq] at hmem
        rcases hmem with hmem | hmem
        · exact absurd hmem hak
        · simpa [entriesLookup, List.find?_cons, hak] using ih hmem
  · simp only [dictInsert, hmem, if_false]
    induction m with
    | nil => simp [entriesLookup, List.find?_cons]
    | cons e rest ih =>
      obtain ⟨a, c⟩ := e
      simp only [List.any_cons, Bool.or_eq_true, decide_eq_true_eq] at hmem
      push_neg at hmem
      simpa [entriesLookup, List.find?_cons, hmem.1] using ih hmem.2

theorem dictInsert_keys_of_mem (m : Entries) (k : String) (v : BaseTaskChain)
    (h : m.any (fun p => decide (p.1 = k)) = true) :
    (dictInsert m k v).map Prod.fst = m.map Prod.fst := by
  simp only [dictInsert, h, if_true, List.map_map]
  clear h
  induction m with
  | nil => rfl
  | cons e rest ih =>
    simp only [List.map_cons, ih]
    by_cases hp : e.1 = k
    · simp [Function.comp_apply, hp]
    · simp [Function.comp_apply, hp]

theorem dictInsert_of_notmem (m : Entries) (k : String) (v : BaseTaskChain)
    (h : ¬ m.any (fun p => decide (p.1 = k)) = true) :
    dictInsert m k v = m ++ [(k, v)] := by
  simp [dictInsert, h]

theorem any_key_iff_mem_keys (m : Entries) (k : String) :
    m.any (fun p => decide (p.1 = k)) = true ↔ k ∈ m.map Prod.fst := by
  simp only [List.any_eq_true, decide_eq_true_eq, List.mem_map]

theorem dictInsert_length_le (m : Entries) (k : String) (v : BaseTaskChain) :
    (dictInsert m k v).length ≤ m.length + 1 := by
  by_cases h : m.any (fun p => decide (p.1 = k)) = true
  · simp [dictInsert, h]
  · simp [dictInsert, h]

/-- Claim C6, amended: admission performs an unconditional dict assignment
under the resulting chain uuid.  When the identifier is already a key of
the table the existing entry is overwritten in place: afterwards the key
resolves to the new chain, and the key sequence of the table, hence also
its size, is unchanged; when the identifier is fresh, the entry is
appended.  Duplicates are never rejected. -/
theorem admission_overwrite_semantics (E : ExtFns) (q : JobQueue)
    (task_template_name : String) (user_parameters : UserParams)
    (tags : Option (List String)) (uuid : Option String)
    (q2 : JobQueue) (chain : BaseTaskChain)
    (h : get_task_chain_from_template E q task_template_name user_parameters tags uuid =
      Except.ok (q2, chain)) :
    q2.entries = dictInsert q.entries chain.uuid chain ∧
    entriesLookup q2.entries chain.uuid = some chain ∧
    (chain.uuid ∈ q.entries.map Prod.fst →
      q2.entries.map Prod.fst = q.entries.map Prod.fst ∧
      q2.entries.length = q.entries.length) ∧
    (chain.uuid ∉ q.entries.map Prod.fst →
      q2.entries = q.entries ++ [(chain.uuid, chain)]) := by
  have hent : q2.entries = dictInsert q.entries chain.uuid chain := by
    unfold get_task_chain_from_template at h
    rcases hfind : E.registryFind task_template_name tags with _ | ⟨t, ts⟩
    · rw [hfind] at h; exact absurd h (by simp)
    · rw [hfind] at h
      simp only [Except.ok.injEq, Prod.mk.injEq] at h
      obtain ⟨hq2, hc⟩ := h
      rw [← hq2, ← hc]
  refine ⟨hent, ?_, ?_, ?_⟩
  · rw [hent]; exact entriesLookup_dictInsert_self q.entries chain.uuid chain
  · intro hmem
    have hany := (any_key_iff_mem_keys q.entries chain.uuid).mpr hmem
    constructor
    · rw [hent]; exact dictInsert_keys_of_mem q.entries chain.uuid chain hany
    · have := dictInsert_keys_of_mem q.entries chain.uuid chain hany
      have h2 : (dictInsert q.entries chain.uuid chain).length = q.entries.length := by
        have := congrArg List.length this
        simpa using this
      rw [hent]; exact h2
  · intro hnm
    have hany : ¬ q.entries.any (fun p => decide (p.1 = chain.uuid)) = true := by
      intro hc; exact hnm ((any_key_iff_mem_keys q.entries chain.uuid).mp hc)
    rw [hent]; exact dictInsert_of_notmem q.entries chain.uuid chain hany

/-- Claim C6, witness: the amended overwrite semantics evaluated at the
concrete duplicate admission of identifier abc. -/
theorem admission_overwrite_semantics_w :
    entriesLookup
      [("abc", ({ uuid := "abc", status := ChainStatus.running, progress := "p0" } :
        BaseTaskChain))] "abc" =
      some { uuid := "abc", status := ChainStatus.running, progress := "p0" } :=
  (admission_overwrite_semantics demoExtFns dupQueue "noop" [] none (some "abc")
    { dupQueue with
      entries := [("abc", { uuid := "abc", status := ChainStatus.running, progress := "p0" })] }
    { uuid := "abc", status := ChainStatus.running, progress := "p0" } rfl).2.1

theorem reportingLoop_cycles (f : String → Bool) (n : Nat) (st : RState) :
    (reportingLoop f n st).cyclesStarted = st.cyclesStarted + n := by
  induction n generalizing st with
  | zero => rfl
  | succ m ih =>
    show (reportingLoop f m (reportingCycle f st)).cyclesStarted = _
    rw [ih]
    simp [reportingCycle]
    omega

theorem reportItems_all_ok (f : String → Bool) (interval : Nat) (status : QueueStatus)
    (silo : StatusStore) (l : Entries)
    (hs1 : status ≠ QueueStatus.complete) (hs2 : status ≠ QueueStatus.terminating)
    (hf : ∀ e ∈ l, f e.1 = false) :
    reportItems f interval status silo l = (writeChains silo interval l, false) := by
  induction l generalizing silo with
  | nil => rfl
  | cons e rest ih =>
    obtain ⟨id, c⟩ := e
    have hid : f id = false := hf (id, c) (List.mem_cons_self _ _)
    have hrest : ∀ e ∈ rest, f e.1 = false := fun e he => hf e (List.mem_cons_of_mem _ he)
    simp only [reportItems, hid, Bool.false_eq_true, if_false, writeChains]
    rw [if_neg (by rintro (h | h) <;> [exact hs1 h; exact hs2 h])]
    exact ih _ hrest

theorem reportItems_abort (f : String → Bool) (interval : Nat) (status : QueueStatus)
    (silo : StatusStore) (pre : Entries) (id : String) (c : BaseTaskChain) (post : Entries)
    (hs1 : status ≠ QueueStatus.complete) (hs2 : status ≠ QueueStatus.terminating)
    (hpre : ∀ e ∈ pre, f e.1 = false) (hid : f id = true) :
    reportItems f interval status silo (pre ++ (id, c) :: post) =
      (writeChains silo interval pre, true) := by
  induction pre generalizing silo with
  | nil =>
    simp only [List.nil_append, reportItems, hid, if_true, writeChains]
  | cons e rest ih =>
    obtain ⟨id2, c2⟩ := e
    have hid2 : f id2 = false := hpre (id2, c2) (List.mem_cons_self _ _)
    have hrest : ∀ e ∈ rest, f e.1 = false := fun e he => hpre e (List.mem_cons_of_mem _ he)
    simp only [List.cons_append, reportItems, hid2, Bool.false_eq_true, if_false, writeChains]
    rw [if_neg (by rintro (h | h) <;> [exact hs1 h; exact hs2 h])]
    exact ih _ hrest

theorem reportItems_break (f : String → Bool) (interval : Nat) (status : QueueStatus)
    (silo : StatusStore) (id : String) (c : BaseTaskChain) (rest : Entries)
    (hstat : status = QueueStatus.complete ∨ status = QueueStatus.terminating)
    (hid : f id = false) :
    reportItems f interval status silo ((id, c) :: rest) =
      (writeChain silo interval id c, false) := by
  simp only [reportItems, hid, Bool.false_eq_true, if_false]
  rw [if_pos hstat]

theorem cycle_all_ok (f : String → Bool) (st : RState)
    (hs1 : st.status ≠ QueueStatus.complete) (hs2 : st.status ≠ QueueStatus.terminating)
    (hf : ∀ e ∈ st.entries, f e.1 = false) :
    (reportingCycle f st).silo =
      writeChains st.silo st.reporting_interval_seconds st.entries := by
  show (reportItems f st.reporting_interval_seconds st.status st.silo st.entries).1 = _
  rw [reportItems_all_ok f _ _ _ _ hs1 hs2 hf]

/-- Claim C7, amended: the reporting while loop never exits, whatever the
queue status: n iterations always start n cycles.  Within one cycle, when
the status is neither complete nor terminating, an error-free pass writes
every admitted chain, but a transient error at one chain abandons the
remaining chains of that cycle (the exception is caught and logged at
cycle level, so the loop itself survives it); when the status is complete
or terminating the per-chain check merely cuts the cycle short after the
first successful write. -/
theorem reporting_loop_semantics (f : String → Bool) (st : RState) (n : Nat) :
    ((reportingLoop f n st).cyclesStarted = st.cyclesStarted + n) ∧
    (st.status ≠ QueueStatus.complete → st.status ≠ QueueStatus.terminating →
      (∀ e ∈ st.entries, f e.1 = false) →
      (reportingCycle f st).silo =
        writeChains st.silo st.reporting_interval_seconds st.entries) ∧
    (st.status ≠ QueueStatus.complete → st.status ≠ QueueStatus.terminating →
      ∀ pre id c post, st.entries = pre ++ (id, c) :: post →
        (∀ e ∈ pre, f e.1 = false) → f id = true →
        (reportingCycle f st).silo =
          writeChains st.silo st.reporting_interval_seconds pre) ∧
    ((st.status = QueueStatus.complete ∨ st.status = QueueStatus.terminating) →
      ∀ id c rest, st.entries = (id, c) :: rest → f id = false →
        (reportingCycle f st).silo =
          writeChain st.silo st.reporting_interval_seconds id c) := by
  refine ⟨reportingLoop_cycles f n st, cycle_all_ok f st, ?_, ?_⟩
  · intro hs1 hs2 pre id c post hsplit hpre hid
    show (reportItems f st.reporting_interval_seconds st.status st.silo st.entries).1 = _
    rw [hsplit, reportItems_abort f _ _ _ _ _ _ _ hs1 hs2 hpre hid]
  · intro hstat id c rest hsplit hid
    show (reportItems f st.reporting_interval_seconds st.status st.silo st.entries).1 = _
    rw [hsplit, reportItems_break f _ _ _ _ _ _ hstat hid]

/-- Claim C7, witness: an error-free cycle on a running queue writes the
straight-line sequence of per-chain updates. -/
theorem reporting_loop_semantics_w :
    (reportingCycle failNone rstOK).silo =
      writeChains rstOK.silo rstOK.reporting_interval_seconds rstOK.entries :=
  (reporting_loop_semantics failNone rstOK 0).2.1 (by decide) (by decide)
    (fun _ _ => rfl)

theorem statusLookup_redisSet_self (s : StatusStore) (k v : String) :
    statusLookup (redisSet s k v) k = some (v, none) := by
  induction s with
  | nil => simp [redisSet, statusLookup, List.find?_cons]
  | cons e rest ih =>
    by_cases he : e.1 = k
    · simp [redisSet, he, statusLookup, List.find?_cons]
    · simpa [redisSet, he, statusLookup, List.find?_cons] using ih

theorem statusLookup_redisSet_ne (s : StatusStore) (k v k2 : String) (h : k2 ≠ k) :
    statusLookup (redisSet s k v) k2 = statusLookup s k2 := by
  have hk2 : ¬ (k = k2) := fun hh => h hh.symm
  induction s with
  | nil => simp [redisSet, statusLookup, List.find?_cons, hk2]
  | cons e rest ih =>
    by_cases he : e.1 = k
    · have he2 : ¬ (e.1 = k2) := by rw [he]; exact hk2
      simp [redisSet, he, statusLookup, List.find?_cons, hk2, he2]
    · by_cases he2 : e.1 = k2
      · simp [redisSet, he, statusLookup, List.find?_cons, he2, h]
      · simpa [redisSet, he, statusLookup, List.find?_cons, he2] using ih

theorem statusLookup_redisExpire_self (s : StatusStore) (k : String) (t : Nat)
    (v : String) (ttl : Option Nat) (h : statusLookup s k = some (v, ttl)) :
    statusLookup (redisExpire s k t) k = some (v, some t) := by
  induction s with
  | nil => simp [statusLookup] at h
  | cons e rest ih =>
    by_cases he : e.1 = k
    · have h2 : e.2 = (v, ttl) := by
        simpa [statusLookup, List.find?_cons, he] using h
      simp [redisExpire, if_pos he, statusLookup, List.find?_cons, h2]
    · simp only [statusLookup, List.find?_cons, he] at h
      simp only [redisExpire, if_neg he]
      simp only [statusLookup, List.find?_cons, he]
      have h2 : statusLookup rest k = some (v, ttl) := by
        simpa [statusLookup, he] using h
      simpa [statusLookup, he] using ih h2

theorem statusLookup_redisExpire_ne (s : StatusStore) (k : String) (t : Nat)
    (k2 : String) (h : k2 ≠ k) :
    statusLookup (redisExpire s k t) k2 = statusLookup s k2 := by
  have hk2 : ¬ (k = k2) := fun hh => h hh.symm
  induction s with
  | nil => rfl
  | cons e rest ih =>
    by_cases he : e.1 = k
    · have he2 : ¬ (e.1 = k2) := by rw [he]; exact hk2
      simp [redisExpire, he, statusLookup, List.find?_cons, hk2, he2]
    · by_cases he2 : e.1 = k2
      · simp [redisExpire, he, statusLookup, List.find?_cons, he2, h]
      · simpa [redisExpire, he, statusLookup, List.find?_cons, he2] using ih

theorem statusLookup_writeChain_self (s : StatusStore) (interval : Nat) (k : String)
    (c : BaseTaskChain) :
    statusLookup (writeChain s interval k c) k = some (c.progress, some (interval * 10)) :=
  statusLookup_redisExpire_self _ k _ c.progress none (statusLookup_redisSet_self s k c.progress)

theorem statusLookup_writeChain_ne (s : StatusStore) (interval : Nat) (k : String)
    (c : BaseTaskChain) (k2 : String) (h : k2 ≠ k) :
    statusLookup (writeChain s interval k c) k2 = statusLookup s k2 := by
  unfold writeChain
  rw [statusLookup_redisExpire_ne _ _ _ _ h, statusLookup_redisSet_ne _ _ _ _ h]

theorem writeChains_append (silo : StatusStore) (interval : Nat) (l1 l2 : Entries) :
    writeChains silo interval (l1 ++ l2) = writeChains (writeChains silo interval l1) interval l2 := by
  induction l1 generalizing silo with
  | nil => rfl
  | cons e rest ih =>
    obtain ⟨id, c⟩ := e
    simp only [List.cons_append, writeChains]
    exact ih _

theorem statusLookup_writeChains_notmem (silo : StatusStore) (interval : Nat)
    (l : Entries) (id : String) (h : id ∉ l.map Prod.fst) :
    statusLookup (writeChains silo interval l) id = statusLookup silo id := by
  induction l generalizing silo with
  | nil => rfl
  | cons e rest ih =>
    obtain ⟨id2, c⟩ := e
    simp only [List.map_cons, List.mem_cons, not_or] at h
    simp only [writeChains]
    rw [ih _ h.2, statusLookup_writeChain_ne _ _ _ _ _ h.1]

theorem statusLookup_writeChains_split (silo : StatusStore) (interval : Nat)
    (pre : Entries) (id : String) (c : BaseTaskChain) (post : Entries)
    (hpost : id ∉ post.map Prod.fst) :
    statusLookup (writeChains silo interval (pre ++ (id, c) :: post)) id =
      some (c.progress, some (interval * 10)) := by
  rw [writeChains_append]
  show statusLookup (writeChains (writeChain (writeChains silo interval pre) interval id c)
    interval post) id = _
  rw [statusLookup_writeChains_notmem _ _ _ _ hpost, statusLookup_writeChain_self]

/-- Claim C8: in every error-free reporting cycle run while the status is
neither complete nor terminating, each admitted chain gets its serialized
detailed progress written under the chain identifier with the expiration
set to exactly reporting_interval_seconds * 10, and a second cycle
refreshes the key to the same expiration. -/
theorem reporting_ttl_exact (f : String → Bool) (st : RState) (id : String)
    (c : BaseTaskChain)
    (hnd : (st.entries.map Prod.fst).Nodup)
    (hmem : (id, c) ∈ st.entries)
    (hf : ∀ x, f x = false)
    (hs1 : st.status ≠ QueueStatus.complete)
    (hs2 : st.status ≠ QueueStatus.terminating) :
    statusLookup (reportingCycle f st).silo id =
      some (c.progress, some (st.reporting_interval_seconds * 10)) ∧
    statusLookup (reportingCycle f (reportingCycle f st)).silo id =
      some (c.progress, some (st.reporting_interval_seconds * 10)) := by
  obtain ⟨pre, post, hsplit⟩ := List.append_of_mem hmem
  have hpost : id ∉ post.map Prod.fst := by
    rw [hsplit] at hnd
    simp only [List.map_append, List.map_cons] at hnd
    exact (List.nodup_cons.mp hnd.of_append_right).1
  have hcycle : ∀ st2 : RState, st2.entries = st.entries → st2.status = st.status →
      st2.reporting_interval_seconds = st.reporting_interval_seconds →
      statusLookup (reportingCycle f st2).silo id =
        some (c.progress, some (st.reporting_interval_seconds * 10)) := by
    intro st2 he hs hi
    have hok : (reportingCycle f st2).silo =
        writeChains st2.silo st2.reporting_interval_seconds st2.entries :=
      cycle_all_ok f st2 (hs ▸ hs1) (hs ▸ hs2) (fun e _ => hf e.1)
    rw [hok, he, hi, hsplit]
    exact statusLookup_writeChains_split st2.silo _ pre id c post hpost
  exact ⟨hcycle st rfl rfl rfl, hcycle (reportingCycle f st) rfl rfl rfl⟩

/-- Claim C8, witness: with reporting_interval_seconds = 5 the written
snapshot of chain a carries a time to live of exactly 50 seconds. -/
theorem reporting_ttl_exact_w :
    (rstOK.entries.map Prod.fst).Nodup ∧
    statusLookup (reportingCycle failNone rstOK).silo "a" = some ("pa", some 50) :=
  ⟨by decide,
    (reporting_ttl_exact failNone rstOK "a" (demoChain "a" "pa") (by decide) (by decide)
      (fun _ => rfl) (by decide) (by decide)).1⟩

theorem lpop_none_eq (silo : RemoteStore) (k : QueueKey) (h : (lpop silo k).1 = none) :
    (lpop silo k).2 = silo := by
  induction silo with
  | nil => rfl
  | cons e rest ih =>
    obtain ⟨a, vs⟩ := e
    by_cases hak : a = k
    · subst hak
      cases vs with
      | nil => simp [lpop]
      | cons v tl => simp [lpop] at h
    · simp only [lpop, if_neg hak] at h ⊢
      rw [ih h]

theorem lpop_cons_ne (a : QueueKey) (vs : List String) (rest : RemoteStore) (key : QueueKey)
    (h : ¬ a = key) :
    lpop ((a, vs) :: rest) key = ((lpop rest key).1, (a, vs) :: (lpop rest key).2) := by
  simp [lpop, h]

theorem tryPopKeys_cons_entry (a : QueueKey) (vs : List String) (rest : RemoteStore)
    (names : List QueueKey) (h : ∀ n ∈ names, ¬ n = a) :
    tryPopKeys ((a, vs) :: rest) names =
      ((tryPopKeys rest names).1, (a, vs) :: (tryPopKeys rest names).2) := by
  induction names with
  | nil => rfl
  | cons n ns ih =>
    have hna : ¬ a = n := fun hh => h n (List.mem_cons_self _ _) hh.symm
    have hns : ∀ m ∈ ns, ¬ m = a := fun m hm => h m (List.mem_cons_of_mem _ hm)
    rcases hl : (lpop rest n).1 with _ | task
    · have hrest : (lpop rest n).2 = rest := lpop_none_eq rest n hl
      simp only [tryPopKeys, lpop_cons_ne a vs rest n hna, hl, hrest]
      exact ih hns
    · simp only [tryPopKeys, lpop_cons_ne a vs rest n hna, hl]

theorem tryPopKeys_filter_eq_singlePass (silo : RemoteStore) (p : Int) :
    (silo.map Prod.fst).Nodup →
    tryPopKeys silo ((silo.map Prod.fst).filter (fun k => decide (k.priority = p))) =
      singlePassPop silo p := by
  induction silo with
  | nil => intro _; rfl
  | cons e rest ih =>
    intro hnd
    obtain ⟨a, vs⟩ := e
    simp only [List.map_cons, List.nodup_cons] at hnd
    obtain ⟨ha, hnd2⟩ := hnd
    by_cases hp : a.priority = p
    · rw [List.map_cons, List.filter_cons, if_pos (by simp [hp])]
      cases vs with
      | cons v tl =>
        simp [tryPopKeys, lpop, singlePassPop, hp]
      | nil =>
        have hnames : ∀ n ∈ (rest.map Prod.fst).filter (fun k => decide (k.priority = p)),
            ¬ n = a := fun n hn he => ha (he ▸ List.mem_of_mem_filter hn)
        have hl : lpop ((a, ([] : List String)) :: rest) a = (none, (a, []) :: rest) := by
          simp [lpop]
        simp only [tryPopKeys, hl]
        rw [tryPopKeys_cons_entry a [] rest _ hnames, ih hnd2]
        simp [singlePassPop, hp]
    · rw [List.map_cons, List.filter_cons, if_neg (by simp [hp])]
      have hnames : ∀ n ∈ (rest.map Prod.fst).filter (fun k => decide (k.priority = p)),
          ¬ n = a := by
        intro n hn he
        have hnp : n.priority = p := by
          have := List.of_mem_filter hn
          simpa using this
        rw [he] at hnp
        exact hp hnp
      rw [tryPopKeys_cons_entry a vs rest _ hnames, ih hnd2]
      simp [singlePassPop, hp]

theorem singlePassPop_none_iff (silo : RemoteStore) (p : Int) :
    (singlePassPop silo p).1 = none ↔ tierPendingB silo p = false := by
  induction silo with
  | nil => simp [singlePassPop, tierPendingB]
  | cons e rest ih =>
    obtain ⟨k, vs⟩ := e
    by_cases hp : k.priority = p
    · cases vs with
      | nil => simpa [singlePassPop, tierPendingB, hp] using ih
      | cons v tl => simp [singlePassPop, tierPendingB, hp]
    · simpa [singlePassPop, tierPendingB, hp] using ih

theorem singlePassPop_none_store (silo : RemoteStore) (p : Int)
    (h : (singlePassPop silo p).1 = none) : (singlePassPop silo p).2 = silo := by
  induction silo with
  | nil => rfl
  | cons e rest ih =>
    obtain ⟨k, vs⟩ := e
    by_cases hp : k.priority = p
    · cases vs with
      | nil =>
        simp only [singlePassPop, if_pos hp] at h ⊢
        rw [ih h]
      | cons v tl => simp [singlePassPop, hp] at h
    · simp only [singlePassPop, if_neg hp] at h ⊢
      rw [ih h]

theorem singlePassPop_some (silo : RemoteStore) (p : Int) (id : String) (task : String)
    (h : (singlePassPop silo p).1 = some (id, task)) :
    ∃ s1 tl s2,
      silo = s1 ++ ({ priority := p, chainId := id }, task :: tl) :: s2 ∧
      (∀ e ∈ s1, e.1.priority = p → e.2 = []) ∧
      (singlePassPop silo p).2 = s1 ++ ({ priority := p, chainId := id }, tl) :: s2 := by
  induction silo with
  | nil => simp [singlePassPop] at h
  | cons e rest ih =>
    obtain ⟨k, vs⟩ := e
    obtain ⟨kp, kc⟩ := k
    by_cases hp : kp = p
    · cases vs with
      | cons v tl =>
        simp only [singlePassPop, if_pos hp] at h ⊢
        simp only [Option.some.injEq, Prod.mk.injEq] at h
        refine ⟨[], tl, rest, ?_, by simp, ?_⟩
        · simp only [List.nil_append]
          rw [← h.1, ← h.2, hp]
        · simp only [List.nil_append]
          rw [← h.1, hp]
      | nil =>
        simp only [singlePassPop, if_pos hp] at h ⊢
        obtain ⟨s1, tl, s2, h1, h2, h3⟩ := ih h
        refine ⟨({ priority := kp, chainId := kc }, []) :: s1, tl, s2, ?_, ?_, ?_⟩
        · rw [h1]; simp
        · intro e he
          rcases List.mem_cons.mp he with he | he
          · intro _; rw [he]
          · exact h2 e he
        · rw [h3]; simp
    · simp only [singlePassPop, if_neg hp] at h ⊢
      obtain ⟨s1, tl, s2, h1, h2, h3⟩ := ih h
      refine ⟨({ priority := kp, chainId := kc }, vs) :: s1, tl, s2, ?_, ?_, ?_⟩
      · rw [h1]; simp
      · intro e he
        rcases List.mem_cons.mp he with he | he
        · intro hep
          rw [he] at hep
          exact absurd hep hp
        · exact h2 e he
      · rw [h3]; simp

/-- Claim C5: for every store with duplicate-free keys and every accepted
priority order, the poll protocol returns nothing exactly when no accepted
tier has a pending entry; and when it returns a pair, the pair comes from
the first accepted tier with a pending entry (every tier listed earlier is
empty: priority strictly dominates age), it is the head of the first
non-empty key of that tier in scan order (every earlier key of that tier
holds an empty list), and the resulting store is the input store with
exactly that head removed, so no later tier or candidate is touched. -/
theorem get_oldest_task_priority_dominance (silo : RemoteStore) (accepted : List Int)
    (hnd : (silo.map Prod.fst).Nodup) :
    (((get_oldest_task_from_queue silo accepted).1 = none) ↔
        (∀ p ∈ accepted, tierPendingB silo p = false)) ∧
    (∀ id task, (get_oldest_task_from_queue silo accepted).1 = some (id, task) →
      ∃ pre p post, accepted = pre ++ p :: post ∧
        (∀ p2 ∈ pre, tierPendingB silo p2 = false) ∧
        ∃ s1 tl s2,
          silo = s1 ++ ({ priority := p, chainId := id }, task :: tl) :: s2 ∧
          (∀ e ∈ s1, e.1.priority = p → e.2 = []) ∧
          (get_oldest_task_from_queue silo accepted).2 =
            s1 ++ ({ priority := p, chainId := id }, tl) :: s2) := by
  induction accepted with
  | nil =>
    constructor
    · simp [get_oldest_task_from_queue]
    · intro id task h
      simp [get_oldest_task_from_queue] at h
  | cons p rest ih =>
    have heq := tryPopKeys_filter_eq_singlePass silo p hnd
    rcases hsp : (singlePassPop silo p).1 with _ | ⟨id0, task0⟩
    · have hpend : tierPendingB silo p = false := (singlePassPop_none_iff silo p).mp hsp
      have hstore : (singlePassPop silo p).2 = silo := singlePassPop_none_store silo p hsp
      obtain ⟨ih1, ih2⟩ := ih
      constructor
      · simp only [get_oldest_task_from_queue, heq, hsp, hstore]
        rw [ih1]
        constructor
        · intro hall p2 hp2
          rcases List.mem_cons.mp hp2 with h2 | h2
          · rw [h2]; exact hpend
          · exact hall p2 h2
        · intro hall p2 hp2
          exact hall p2 (List.mem_cons_of_mem _ hp2)
      · intro id task h
        simp only [get_oldest_task_from_queue, heq, hsp, hstore] at h
        obtain ⟨pre, p2, post, ha, hb, hc⟩ := ih2 id task h
        refine ⟨p :: pre, p2, post, by rw [ha]; rfl, ?_, ?_⟩
        · intro q hq
          rcases List.mem_cons.mp hq with hq | hq
          · rw [hq]; exact hpend
          · exact hb q hq
        · simpa only [get_oldest_task_from_queue, heq, hsp, hstore] using hc
    · have hpend : tierPendingB silo p = true := by
        by_cases hc : tierPendingB silo p = true
        · exact hc
        · have hf : tierPendingB silo p = false := by simpa using hc
          rw [(singlePassPop_none_iff silo p).mpr hf] at hsp
          cases hsp
      constructor
      · simp only [get_oldest_task_from_queue, heq, hsp]
        constructor
        · intro habs; cases habs
        · intro hall
          rw [hall p (List.mem_cons_self p rest)] at hpend
          cases hpend
      · intro id task h
        simp only [get_oldest_task_from_queue, heq, hsp] at h
        simp only [Option.some.injEq, Prod.mk.injEq] at h
        obtain ⟨hid, htask⟩ := h
        obtain ⟨s1, tl, s2, h1, h2, h3⟩ :=
          singlePassPop_some silo p id task (by rw [hsp, hid, htask])
        refine ⟨[], p, rest, rfl, by simp, s1, tl, s2, h1, h2, ?_⟩
        simp only [get_oldest_task_from_queue, heq, hsp]
        exact h3

/-- Claim C5, witness: the no-task characterization applied to a concrete
store holding an older tier-5 entry before a newer tier-1 entry, with
accepted order [1, 5]; the concrete poll also returns the tier-1 entry. -/
theorem get_oldest_task_priority_dominance_w :
    (demoSilo.map Prod.fst).Nodup ∧
    (((get_oldest_task_from_queue demoSilo [1, 5]).1 = none) ↔
      (∀ p ∈ [(1 : Int), 5], tierPendingB demoSilo p = false)) ∧
    (get_oldest_task_from_queue demoSilo [1, 5]).1 = some ("new", "vnew") :=
  ⟨by decide, (get_oldest_task_priority_dominance demoSilo [1, 5] (by decide)).1, by decide⟩

theorem get_task_chain_ok_shape (E : ExtFns) (q : JobQueue) (n : String) (up : UserParams)
    (tg : Option (List String)) (u : Option String) (q2 : JobQueue) (c : BaseTaskChain)
    (h : get_task_chain_from_template E q n up tg u = Except.ok (q2, c)) :
    q2 = { q with entries := dictInsert q.entries c.uuid c } := by
  unfold get_task_chain_from_template at h
  rcases hE : E.registryFind n tg with _ | ⟨t, ts⟩
  · rw [hE] at h; cases h
  · rw [hE] at h
    simp only [Except.ok.injEq, Prod.mk.injEq] at h
    rw [← h.1, ← h.2]

/-- Capacity invariant of the shared table: under any interleaving of
intake iterations and completion callbacks, and for arbitrary external
collaborators, a table that starts within max_chains stays within
max_chains, because the intake guard is evaluated before each poll and
the admission inserts at most one entry. -/
theorem intake_capacity_invariant (E : ExtFns) (events : List AgentEvent) (s : AgentState)
    (h : s.q.entries.length ≤ s.q.max_chains) :
    (agentRun E s events).q.entries.length ≤ (agentRun E s events).q.max_chains := by
  induction events generalizing s with
  | nil => exact h
  | cons e es ih =>
    apply ih
    cases e with
    | complete id =>
      show (on_chain_complete s.q id).entries.length ≤ (on_chain_complete s.q id).max_chains
      calc (dictPop s.q.entries id).length ≤ s.q.entries.length := List.length_filter_le _ _
        _ ≤ s.q.max_chains := h
    | intake =>
      show (intakeIteration E s).q.entries.length ≤ (intakeIteration E s).q.max_chains
      by_cases h1 : s.intakeExited = true ∨ s.intakeCrashed = true
      · simpa [intakeIteration, h1] using h
      · by_cases h2 : s.q.is_queue_full = true ∨ s.q.status = QueueStatus.terminating
        · simpa [intakeIteration, h1, h2] using h
        · have hlt : s.q.entries.length < s.q.max_chains := by
            rcases Nat.lt_or_ge s.q.entries.length s.q.max_chains with hlt | hge
            · exact hlt
            · exact absurd
                (by simp [JobQueue.is_queue_full, hge] : s.q.is_queue_full = true)
                (fun hc => h2 (Or.inl hc))
          rcases hr : (get_oldest_task_from_queue s.remote s.q.accepted_chain_priorities).1
            with _ | ⟨tid, task⟩
          · simpa [intakeIteration, h1, h2, hr] using h
          · rcases hload : E.loads tid with _ | t
            · simpa [intakeIteration, h1, h2, hr, hload] using h
            · rcases hadm : get_task_chain_from_template E s.q
                  t.task_template_name t.user_parameters t.tags t.uuid with err | pair
              · simpa [intakeIteration, h1, h2, hr, hload, hadm] using h
              · obtain ⟨q2, c⟩ := pair
                have hq2 := get_task_chain_ok_shape E s.q _ _ _ _ q2 c hadm
                have hlen : q2.entries.length ≤ s.q.max_chains := by
                  rw [hq2]
                  calc (dictInsert s.q.entries c.uuid c).length
                      ≤ s.q.entries.length + 1 := dictInsert_length_le _ _ _
                    _ ≤ s.q.max_chains := hlt
                have hmax : q2.max_chains = s.q.max_chains := by rw [hq2]
                simp only [intakeIteration, h1, h2, hr, hload, hadm]
                simpa [hmax] using hlen

end CloudHarvestAgent
